import Mathlib

/-!
Verification of the TurtleCoin Ledger application (signing core).

The development shallowly embeds the code of `src/utils.c`,
the file apdu_tx_finalize_prefix.c and the cryptographic interface of
`src/hw_crypto.h`.  Byte buffers are modelled as functions `ℕ → ℕ`
holding byte values, machine integers as `ℕ` with explicit masking
where the C types truncate, and the Ledger curve group abstractly as a
module over `ZMod L` (the scalar field modulo the group order `L`).
-/

namespace Turtle

/-! ## Model of `src/utils.c` -/

/-- Device state visible to the utility routines: the secure scratch
region `WORKING_SET` and the APDU exchange buffer `G_io_apdu_buffer`,
both modelled as byte-valued functions on indices. -/
structure DeviceState where
  workingSet : ℕ → ℕ
  apdu : ℕ → ℕ

/-- `explicit_bzero(buf, n)`: overwrite the first `n` bytes with zero. -/
def explicit_bzero (buf : ℕ → ℕ) (n : ℕ) : ℕ → ℕ :=
  fun i => if i < n then 0 else buf i

/-- `uint16ToChar(r, value)` from `utils.c`: stores the high byte
(`value >> 8`) at `r[0]` and the low byte (`value & 0xFF`) at `r[1]`. -/
def uint16ToChar (r : ℕ → ℕ) (value : ℕ) : ℕ → ℕ :=
  Function.update (Function.update r 0 (value >>> 8)) 1 (value &&& 0xFF)

/-- `readUint16BE(buffer)` from `utils.c`: `(buffer[0] << 8) | buffer[1]`. -/
def readUint16BE (buffer : ℕ → ℕ) : ℕ :=
  (buffer 0) <<< 8 ||| (buffer 1)

/-- `sendResponse(tx, approve)` from `utils.c`: appends the status word
(`0x90 0x00` on approval, `0x69 0x85` on refusal) after the `tx` payload
bytes already in the APDU buffer and exchanges `tx + 2` bytes. -/
def sendResponse (s : DeviceState) (tx : ℕ) (approve : Bool) : DeviceState × ℕ :=
  let b1 := Function.update s.apdu tx (if approve then 0x90 else 0x69)
  let b2 := Function.update b1 (tx + 1) (if approve then 0x00 else 0x85)
  ({ s with apdu := b2 }, tx + 2)

/-- `write_io_fixed(output, output_size, ...)` from `utils.c`: copies
`output` to the start of the APDU buffer and returns the byte count. -/
def write_io_fixed (s : DeviceState) (output : List ℕ) : DeviceState × ℕ :=
  ({ s with apdu := fun i => if h : i < output.length then output.get ⟨i, h⟩ else s.apdu i },
   output.length)

/-- `sendError(errCode)` from `utils.c`: serialises the 16-bit error
code with `uint16ToChar`, writes it through `write_io_hybrid` (which
delegates to `write_io_fixed` with size 2) and sends it as a refused
response. -/
def sendError (s : DeviceState) (errCode : ℕ) : DeviceState × ℕ :=
  let ec := uint16ToChar (fun _ => 0) errCode
  let w := write_io_fixed s [ec 0, ec 1]
  sendResponse w.1 w.2 false

/-- `do_deny()` from `utils.c`: zeroes the whole working set and reports
the operation-not-permitted error.  `WORKING_SET_SIZE` and the numeric
value `ERR_OP_NOT_PERMITTED` come from headers outside the excerpt, so
both are parameters of the model. -/
def do_deny (WORKING_SET_SIZE ERR_OP_NOT_PERMITTED : ℕ) (s : DeviceState) :
    DeviceState × ℕ :=
  sendError { s with workingSet := explicit_bzero s.workingSet WORKING_SET_SIZE }
    ERR_OP_NOT_PERMITTED

/-! ## Model of the transaction session -/

/-- Session states of the transaction state machine (`transaction.h` is
outside the excerpt; the state names follow the spec and the
`TX_OUTPUTS_RECEIVED` symbol used by apdu_tx_finalize_prefix.c ). -/
inductive TxState
  | TX_IDLE
  | TX_INPUTS_RECEIVED
  | TX_OUTPUTS_RECEIVED
  | TX_PREFIX_FINALIZED
  | TX_SIGNING
  | TX_COMPLETE
deriving DecidableEq

/-- Modelled from the spec: the transaction session state lives inside
the working set owned by the session, and the idle state is the zeroed
(default) encoding, so that wiping the working set returns the session
to `IDLE`.  The accessor decodes the state byte at offset 0. -/
def txStateOfByte (b : ℕ) : TxState :=
  if b = 0 then TxState.TX_IDLE
  else if b = 1 then TxState.TX_INPUTS_RECEIVED
  else if b = 2 then TxState.TX_OUTPUTS_RECEIVED
  else if b = 3 then TxState.TX_PREFIX_FINALIZED
  else if b = 4 then TxState.TX_SIGNING
  else TxState.TX_COMPLETE

/-- Modelled from the spec: `tx_state()` reads the session state held in
the working set region. -/
def tx_state (s : DeviceState) : TxState :=
  txStateOfByte (s.workingSet 0)

/-- Session contents tracked by the finalize prefix handler claims: the
machine state together with the accumulated inputs, outputs and the
prefix hash (their representations are opaque type parameters since
`transaction.h` is outside the excerpt). -/
structure Session (I O Q : Type) where
  state : TxState
  inputs : List I
  outputs : List O
  prefixHash : Q

/-- Host-visible effects of an APDU handler: the device buffers, the
`*flags` word and whether a UX confirmation flow was started. -/
structure HandlerIO where
  dev : DeviceState
  flags : ℕ
  uxFlowStarted : Bool

/-- The handler handle_tx_finalize_prefix (flags) of apdu_tx_finalize_prefix.c :
if the session is not in `TX_OUTPUTS_RECEIVED` it sends
`ERR_TRANSACTION_STATE` and returns at once; otherwise it starts the
confirmation flow and sets `IO_ASYNCH_REPLY` in `*flags`.  The numeric
values `ERR_TRANSACTION_STATE` and `IO_ASYNCH_REPLY` come from headers
outside the excerpt and are parameters. -/
def handle_tx_finalize_prefix {I O Q : Type}
    (IO_ASYNCH_REPLY ERR_TRANSACTION_STATE : ℕ)
    (sess : Session I O Q) (io : HandlerIO) : Session I O Q × HandlerIO :=
  if sess.state ≠ TxState.TX_OUTPUTS_RECEIVED then
    (sess, { io with dev := (sendError io.dev ERR_TRANSACTION_STATE).1 })
  else
    (sess, { io with flags := io.flags ||| IO_ASYNCH_REPLY, uxFlowStarted := true })

/-! ## Model of the cryptographic interface of `src/hw_crypto.h`

Only declarations of these functions appear in the excerpt; their
bodies are modelled from the spec (sections 4.2 to 4.4).  The curve is
an abstract `ZMod L`-module `P` with base point `G`, hash-to-point map
`Hp`, scalar-domain hash `Hs` and ring-closure hash `H`. -/

/-- Error taxonomy of the cryptographic layer (spec section 7); the
numeric `uint16_t` codes live in headers outside the excerpt. -/
inductive HwError
  | InvalidRingIndex
  | InvalidKey
deriving DecidableEq

section Crypto

variable {L : ℕ} {P : Type} [AddCommGroup P] [Module (ZMod L) P] [DecidableEq P]

/-- Modelled from the spec: `hw_generate_key_derivation(public, private)`
computes the shared derivation `8 · privateKey · txPublicKey`. -/
def hw_generate_key_derivation (publicKey : P) (privateKey : ZMod L) : P :=
  (8 : ZMod L) • privateKey • publicKey

/-- Modelled from the spec: `hw_derive_public_key(derivation, output_index,
publicSpend)` computes `publicSpend + Hs(derivation ‖ outputIndex) · G`. -/
def hw_derive_public_key (G : P) (Hs : P → ℕ → ZMod L)
    (derivation : P) (output_index : ℕ) (publicSpend : P) : P :=
  publicSpend + (Hs derivation output_index) • G

/-- Modelled from the spec: `hw_derive_secret_key(derivation, output_index,
privateSpend)` computes `privateSpend + Hs(derivation ‖ outputIndex) mod L`. -/
def hw_derive_secret_key (Hs : P → ℕ → ZMod L)
    (derivation : P) (output_index : ℕ) (privateSpend : ZMod L) : ZMod L :=
  privateSpend + Hs derivation output_index

/-- Modelled from the spec: the primitive `hw__generate_key_image(I, P, x)`
computes `keyImage = x · hash_to_point(P)`. -/
def hw__generate_key_image (Hp : P → P) (x : ZMod L) (outputKey : P) : P :=
  x • Hp outputKey

/-- Modelled from the spec: `hw_generate_key_image` composes the key
derivation, the one-time secret key and the key-image primitive, so the
caller never handles the intermediate one-time private key.  The
`publicSpend` argument mirrors the C signature. -/
def hw_generate_key_image (Hp : P → P) (Hs : P → ℕ → ZMod L)
    (tx_public_key : P) (output_index : ℕ) (output_key : P)
    (privateView privateSpend : ZMod L) (publicSpend : P) : P :=
  hw__generate_key_image Hp
    (hw_derive_secret_key Hs (hw_generate_key_derivation tx_public_key privateView)
      output_index privateSpend)
    output_key

/-- One ring member's commitment pair as recomputed by the verifier from
its (challenge, response) pair: `(s·G + c·P_i, s·Hp(P_i) + c·I)`. -/
def ringCommit (G : P) (Hp : P → P) (I : P) (Pi : P) (cs : ZMod L × ZMod L) : P × P :=
  (cs.2 • G + cs.1 • Pi, cs.2 • Hp Pi + cs.1 • I)

/-- Modelled from the spec: `hw__generate_ring_signatures` produces a
CryptoNote-style ring signature.  For every decoy index the (challenge,
response) pair is drawn from the random stream `rand`; the real index's
challenge closes the ring so that the sum of all challenges equals
`H(prefixHash ‖ keyImage ‖ all commitments)`, and its response is solved
algebraically from the one-time private key `x` and nonce `k`.  It fails
with `InvalidRingIndex` when `real_output_index` is out of range and with
`InvalidKey` when a ring member fails point validation (`valid`). -/
def hw__generate_ring_signatures (G : P) (Hp : P → P) {PH : Type}
    (H : PH → P → List (P × P) → ZMod L) (valid : P → Bool)
    (tx_prefix_hash : PH) (key_image : P) (public_keys : List P)
    (private_ephemeral : ZMod L) (k : ZMod L) (rand : ℕ → ZMod L × ZMod L)
    (real_output_index : ℕ) :
    Except HwError (List (ZMod L × ZMod L)) :=
  if hlt : real_output_index < public_keys.length then
    if public_keys.all valid then
      let commits : List (P × P) := List.ofFn fun i : Fin public_keys.length =>
        if i.val = real_output_index then
          (k • G, k • Hp (public_keys.get i))
        else
          ringCommit G Hp key_image (public_keys.get i) (rand i.val)
      let c : ZMod L := H tx_prefix_hash key_image commits
      let cReal : ZMod L :=
        c - ∑ i ∈ Finset.univ.filter (fun i : Fin public_keys.length =>
              i.val ≠ real_output_index), (rand i.val).1
      let sReal : ZMod L := k - cReal * private_ephemeral
      Except.ok (List.ofFn fun i : Fin public_keys.length =>
        if i.val = real_output_index then (cReal, sReal) else rand i.val)
    else
      Except.error HwError.InvalidKey
  else
    Except.error HwError.InvalidRingIndex

/-- Modelled from the spec: `hw_check_ring_signatures` recomputes every
member's commitment from its (challenge, response) pair and checks the
aggregate challenge equality; it is a total Boolean function that
answers `false` on any malformed input. -/
def hw_check_ring_signatures (G : P) (Hp : P → P) {PH : Type}
    (H : PH → P → List (P × P) → ZMod L)
    (tx_prefix_hash : PH) (key_image : P) (public_keys : List P)
    (signatures : List (ZMod L × ZMod L)) : Bool :=
  if h : public_keys.length = signatures.length ∧ 0 < public_keys.length then
    decide (((signatures.map Prod.fst).sum : ZMod L) = H tx_prefix_hash key_image
      (List.ofFn fun i : Fin public_keys.length =>
        ringCommit G Hp key_image (public_keys.get i) (signatures.get (Fin.cast h.1 i))))
  else
    false

end Crypto

/-- A concrete ring-closure hash over the scalar field `ZMod 7`, used
to instantiate the abstract model at the witnesses. -/
def Hdemo : Unit → ZMod 7 → List (ZMod 7 × ZMod 7) → ZMod 7 :=
  fun _ i cs => i + (cs.map Prod.fst).sum

/-! ## Theorems -/

/-- Claim C8: for every `(tx, approve)` input, `sendResponse` appends
exactly two status bytes after the `tx` payload bytes — `0x90 0x00` when
`approve` is true and `0x69 0x85` when `approve` is false — exchanges
`tx + 2` bytes, and leaves the payload and the working set untouched. -/
theorem sendResponse_status_bytes (s : DeviceState) (tx : ℕ) (approve : Bool) :
    (sendResponse s tx approve).2 = tx + 2
    ∧ (sendResponse s tx approve).1.apdu tx = (if approve then 0x90 else 0x69)
    ∧ (sendResponse s tx approve).1.apdu (tx + 1) = (if approve then 0x00 else 0x85)
    ∧ (∀ i, i < tx → (sendResponse s tx approve).1.apdu i = s.apdu i)
    ∧ (sendResponse s tx approve).1.workingSet = s.workingSet := by
  refine ⟨rfl, ?_, ?_, ?_, rfl⟩
  · have h : tx ≠ tx + 1 := by omega
    simp [sendResponse, Function.update_apply, h]
  · simp [sendResponse, Function.update_apply]
  · intro i hi
    have h1 : i ≠ tx := by omega
    have h2 : i ≠ tx + 1 := by omega
    simp [sendResponse, Function.update_apply, h1, h2]

/-- Witness for C8 at a concrete device state, `tx = 3`, `approve = true`. -/
theorem sendResponse_status_bytes_witness :
    (sendResponse ⟨fun _ => 0, fun _ => 7⟩ 3 true).2 = 5
    ∧ (sendResponse ⟨fun _ => 0, fun _ => 7⟩ 3 true).1.apdu 3 = 0x90
    ∧ (sendResponse ⟨fun _ => 0, fun _ => 7⟩ 3 true).1.apdu 0 = 7 := by
  have h := sendResponse_status_bytes ⟨fun _ => 0, fun _ => 7⟩ 3 true
  exact ⟨h.1, h.2.1, (h.2.2.2.1 0 (by decide)).trans rfl⟩

/-- Claim C9: writing a 16-bit value with `uint16ToChar` (high byte
first) and reading the buffer back with `readUint16BE` is the identity
on `uint16_t` values. -/
theorem readUint16BE_uint16ToChar_roundtrip (r : ℕ → ℕ) (v : ℕ) (hv : v < 65536) :
    readUint16BE (uint16ToChar r v) = v := by
  have hb0 : uint16ToChar r v 0 = v >>> 8 := by
    simp [uint16ToChar, Function.update_apply]
  have hb1 : uint16ToChar r v 1 = v &&& 0xFF := by
    simp [uint16ToChar, Function.update_apply]
  rw [readUint16BE, hb0, hb1]
  have h1 : v &&& 0xFF = v % 256 := by
    have h := Nat.and_pow_two_sub_one_eq_mod v 8
    norm_num at h
    exact h
  have h2 : (v >>> 8) <<< 8 = 2 ^ 8 * (v / 2 ^ 8) := by
    rw [Nat.shiftRight_eq_div_pow, Nat.shiftLeft_eq, Nat.mul_comm]
  have h3 : v % 256 < 2 ^ 8 := by omega
  rw [h1, h2, ← Nat.mul_add_lt_is_or h3]
  omega

/-- Witness for C9 at `v = 0xBEEF` over an all-zero initial buffer. -/
theorem readUint16BE_uint16ToChar_roundtrip_witness :
    readUint16BE (uint16ToChar (fun _ => 0) 0xBEEF) = 0xBEEF :=
  readUint16BE_uint16ToChar_roundtrip (fun _ => 0) 0xBEEF (by decide)

/-- Claim C1: `do_deny` zeroes every byte of the working set region,
leaves the session in the `IDLE` state (the session state lives inside
the wiped region), and reports the operation-not-permitted error code —
its two bytes followed by the refusal status word `0x69 0x85`, four
bytes in total. -/
theorem do_deny_wipes_and_reports (N e : ℕ) (s : DeviceState) (hN : 0 < N) :
    (∀ i, i < N → (do_deny N e s).1.workingSet i = 0)
    ∧ tx_state (do_deny N e s).1 = TxState.TX_IDLE
    ∧ (do_deny N e s).1.apdu 0 = e >>> 8
    ∧ (do_deny N e s).1.apdu 1 = e &&& 0xFF
    ∧ (do_deny N e s).1.apdu 2 = 0x69
    ∧ (do_deny N e s).1.apdu 3 = 0x85
    ∧ (do_deny N e s).2 = 4 := by
  have hws : (do_deny N e s).1.workingSet = explicit_bzero s.workingSet N := rfl
  refine ⟨?_, ?_, ?_, ?_, ?_, ?_, rfl⟩
  · intro i hi
    rw [hws]
    simp [explicit_bzero, hi]
  · rw [tx_state, hws]
    simp [explicit_bzero, hN, txStateOfByte]
  · simp [do_deny, sendError, write_io_fixed, sendResponse, uint16ToChar,
      Function.update_apply]
  · simp [do_deny, sendError, write_io_fixed, sendResponse, uint16ToChar,
      Function.update_apply]
  · simp [do_deny, sendError, write_io_fixed, sendResponse, Function.update_apply]
  · simp [do_deny, sendError, write_io_fixed, sendResponse, Function.update_apply]

/-- Witness for C1 with a 4-byte working set full of nonzero bytes. -/
theorem do_deny_wipes_and_reports_witness :
    (do_deny 4 0x6600 ⟨fun _ => 9, fun _ => 9⟩).1.workingSet 0 = 0
    ∧ tx_state (do_deny 4 0x6600 ⟨fun _ => 9, fun _ => 9⟩).1 = TxState.TX_IDLE
    ∧ (do_deny 4 0x6600 ⟨fun _ => 9, fun _ => 9⟩).1.apdu 2 = 0x69 := by
  have h := do_deny_wipes_and_reports 4 0x6600 ⟨fun _ => 9, fun _ => 9⟩ (by decide)
  exact ⟨h.1 0 (by decide), h.2.1, h.2.2.2.2.1⟩

/-- Claim C2: when the session is in any state other than
`TX_OUTPUTS_RECEIVED`, the finalize prefix command reports the
transaction-state error and mutates nothing: the session — its state,
inputs, outputs and prefix hash — is returned unchanged, and the error
code with the refusal status word is what reaches the host. -/
theorem tx_finalize_rejected_no_mutation {I O Q : Type}
    (A E : ℕ) (sess : Session I O Q) (io : HandlerIO)
    (h : sess.state ≠ TxState.TX_OUTPUTS_RECEIVED) :
    ( handle_tx_finalize_prefix A E sess io).1 = sess
    ∧ ( handle_tx_finalize_prefix A E sess io).1.state = sess.state
    ∧ ( handle_tx_finalize_prefix A E sess io).1.inputs = sess.inputs
    ∧ ( handle_tx_finalize_prefix A E sess io).1.outputs = sess.outputs
    ∧ ( handle_tx_finalize_prefix A E sess io).1.prefixHash = sess.prefixHash
    ∧ ( handle_tx_finalize_prefix A E sess io).2.dev.apdu 0 = E >>> 8
    ∧ ( handle_tx_finalize_prefix A E sess io).2.dev.apdu 1 = E &&& 0xFF
    ∧ ( handle_tx_finalize_prefix A E sess io).2.dev.apdu 2 = 0x69
    ∧ ( handle_tx_finalize_prefix A E sess io).2.dev.apdu 3 = 0x85 := by
  have hs : ( handle_tx_finalize_prefix A E sess io).1 = sess := by
    simp [ handle_tx_finalize_prefix, h]
  refine ⟨hs, by rw [hs], by rw [hs], by rw [hs], by rw [hs], ?_, ?_, ?_, ?_⟩
  all_goals
    simp [ handle_tx_finalize_prefix, h, sendError, write_io_fixed, sendResponse,
      uint16ToChar, Function.update_apply]

/-- Witness for C2 with an idle session and a concrete device state. -/
theorem tx_finalize_rejected_no_mutation_witness :
    ( handle_tx_finalize_prefix (I := ℕ) (O := ℕ) (Q := ℕ) 16 0x6501
        ⟨TxState.TX_IDLE, [1], [2], 3⟩ ⟨⟨fun _ => 0, fun _ => 0⟩, 7, false⟩).1
      = ⟨TxState.TX_IDLE, [1], [2], 3⟩
    ∧ ( handle_tx_finalize_prefix (I := ℕ) (O := ℕ) (Q := ℕ) 16 0x6501
        ⟨TxState.TX_IDLE, [1], [2], 3⟩ ⟨⟨fun _ => 0, fun _ => 0⟩, 7, false⟩).2.dev.apdu 2
      = 0x69 := by
  have h := tx_finalize_rejected_no_mutation (I := ℕ) (O := ℕ) (Q := ℕ) 16 0x6501
    ⟨TxState.TX_IDLE, [1], [2], 3⟩ ⟨⟨fun _ => 0, fun _ => 0⟩, 7, false⟩ (by decide)
  exact ⟨h.1, h.2.2.2.2.2.2.2.1⟩

/-- Claim C10: when the session state differs from
`TX_OUTPUTS_RECEIVED`, the handler handle_tx_finalize_prefix sends the
transaction-state error and returns without touching the `flags` output
parameter (so `IO_ASYNCH_REPLY` is never set) and without starting the
confirmation UX flow. -/
theorem handle_finalize_flags_untouched {I O Q : Type}
    (A E : ℕ) (sess : Session I O Q) (io : HandlerIO)
    (h : sess.state ≠ TxState.TX_OUTPUTS_RECEIVED) :
    ( handle_tx_finalize_prefix A E sess io).2.flags = io.flags
    ∧ ( handle_tx_finalize_prefix A E sess io).2.uxFlowStarted = io.uxFlowStarted
    ∧ ( handle_tx_finalize_prefix A E sess io).2.dev.apdu 0 = E >>> 8
    ∧ ( handle_tx_finalize_prefix A E sess io).2.dev.apdu 1 = E &&& 0xFF
    ∧ ( handle_tx_finalize_prefix A E sess io).2.dev.apdu 2 = 0x69
    ∧ ( handle_tx_finalize_prefix A E sess io).2.dev.apdu 3 = 0x85 := by
  refine ⟨?_, ?_, ?_, ?_, ?_, ?_⟩
  all_goals
    simp [ handle_tx_finalize_prefix, h, sendError, write_io_fixed, sendResponse,
      uint16ToChar, Function.update_apply]

/-- Helper for C3: closing the ring at the real index.  For any
challenge `a`, the verifier's recomputed commitment from the pair
`(a, k - a·x)` over the real member `x·G` and key image `x·Hp(x·G)`
is exactly the generator's commitment `(k·G, k·Hp(x·G))`. -/
theorem ringCommit_close {L : ℕ} {P : Type} [AddCommGroup P] [Module (ZMod L) P]
    (G : P) (Hp : P → P) (x k a : ZMod L) :
    ringCommit G Hp (x • Hp (x • G)) (x • G) (a, k - a * x) = (k • G, k • Hp (x • G)) := by
  unfold ringCommit
  refine Prod.ext ?_ ?_
  · show (k - a * x) • G + a • x • G = k • G
    rw [smul_smul, sub_smul]
    abel
  · show (k - a * x) • Hp (x • G) + a • x • Hp (x • G) = k • Hp (x • G)
    rw [smul_smul, sub_smul]
    abel

/-- Helper for C3: `hw_check_ring_signatures` applied to a signature
list given as `List.ofFn` reduces to the aggregate challenge check. -/
theorem check_ofFn {L : ℕ} {P : Type} [AddCommGroup P] [Module (ZMod L) P]
    [DecidableEq P] {PH : Type}
    (G : P) (Hp : P → P) (H : PH → P → List (P × P) → ZMod L)
    (tph : PH) (I : P) (ring : List P) (f : Fin ring.length → ZMod L × ZMod L)
    (h0 : 0 < ring.length) :
    hw_check_ring_signatures G Hp H tph I ring (List.ofFn f) =
      decide (((List.ofFn f).map Prod.fst).sum
        = H tph I (List.ofFn fun i => ringCommit G Hp I (ring.get i) (f i))) := by
  unfold hw_check_ring_signatures
  have hcond : ring.length = (List.ofFn f).length ∧ 0 < ring.length :=
    ⟨(List.length_ofFn f).symm, h0⟩
  rw [dif_pos hcond]
  have hget : ∀ i : Fin ring.length, (List.ofFn f).get (Fin.cast hcond.1 i) = f i := by
    intro i
    rw [List.get_ofFn]
    congr 1
  have hC : (List.ofFn fun i : Fin ring.length => ringCommit G Hp I (ring.get i)
      ((List.ofFn f).get (Fin.cast hcond.1 i)))
      = List.ofFn fun i => ringCommit G Hp I (ring.get i) (f i) := by
    apply congrArg List.ofFn
    funext i
    rw [hget i]
  rw [hC]

/-- Claim C3: ring-signature round trip.  For every ring of size 1 to
16, every real index inside the ring, every one-time private key `x`
matching the real ring member (`ring[realIndex] = x·G`) and the key
image (`I = x·Hp(ring[realIndex])`), any signature produced by the
generator verifies: the aggregate challenge equality holds, including
for the degenerate ring of length 1. -/
theorem ring_signature_roundtrip {L : ℕ} {P : Type} [AddCommGroup P]
    [Module (ZMod L) P] [DecidableEq P] {PH : Type}
    (G : P) (Hp : P → P) (H : PH → P → List (P × P) → ZMod L) (valid : P → Bool)
    (tph : PH) (ring : List P) (x k : ZMod L) (rand : ℕ → ZMod L × ZMod L)
    (realIndex : ℕ) (I : P)
    (h1 : 1 ≤ ring.length) (h16 : ring.length ≤ 16)
    (hidx : realIndex < ring.length)
    (hreal : ring.get ⟨realIndex, hidx⟩ = x • G)
    (hI : I = x • Hp (ring.get ⟨realIndex, hidx⟩))
    (sig : List (ZMod L × ZMod L))
    (hgen : hw__generate_ring_signatures G Hp H valid tph I ring x k rand realIndex
              = Except.ok sig) :
    hw_check_ring_signatures G Hp H tph I ring sig = true := by
  classical
  have hall : ring.all valid = true := by
    by_contra hC
    rw [hw__generate_ring_signatures, dif_pos hidx, if_neg hC] at hgen
    exact absurd hgen (by simp)
  rw [hw__generate_ring_signatures, dif_pos hidx, if_pos hall] at hgen
  simp only [Except.ok.injEq] at hgen
  set commitsG : List (P × P) := List.ofFn (fun i : Fin ring.length =>
    if (i : ℕ) = realIndex then (k • G, k • Hp (ring.get i))
    else ringCommit G Hp I (ring.get i) (rand (i : ℕ))) with hcg
  set w : ZMod L := ∑ i ∈ Finset.filter (fun i : Fin ring.length => (i : ℕ) ≠ realIndex)
    Finset.univ, (rand (i : ℕ)).1 with hwdef
  set c : ZMod L := H tph I commitsG with hcdef
  rw [← hgen]
  rw [check_ofFn G Hp H tph I ring _ h1, decide_eq_true_eq]
  have hC : (List.ofFn fun i : Fin ring.length => ringCommit G Hp I (ring.get i)
      (if (i : ℕ) = realIndex then (c - w, k - (c - w) * x) else rand (i : ℕ))) = commitsG := by
    rw [hcg]
    apply congrArg List.ofFn
    funext i
    by_cases hi : (i : ℕ) = realIndex
    · have hir : i = ⟨realIndex, hidx⟩ := Fin.ext hi
      rw [if_pos hi, if_pos hi, hir, hreal, hI, hreal]
      exact ringCommit_close G Hp x k (c - w)
    · rw [if_neg hi, if_neg hi]
  rw [hC, ← hcdef]
  rw [List.map_ofFn, List.sum_ofFn]
  have hite : ∀ i : Fin ring.length, (Prod.fst ∘ fun i : Fin ring.length =>
      if (i : ℕ) = realIndex then (c - w, k - (c - w) * x) else rand (i : ℕ)) i
      = if (i : ℕ) = realIndex then c - w else (rand (i : ℕ)).1 := by
    intro i
    by_cases hi : (i : ℕ) = realIndex
    · simp [hi]
    · simp [hi]
  rw [Finset.sum_congr rfl fun i _ => hite i]
  have hr0 : (⟨realIndex, hidx⟩ : Fin ring.length) ∈ Finset.univ := Finset.mem_univ _
  rw [← Finset.add_sum_erase _ _ hr0, if_pos rfl]
  have hsum2 : ∑ i ∈ Finset.univ.erase (⟨realIndex, hidx⟩ : Fin ring.length),
      (if (i : ℕ) = realIndex then c - w else (rand (i : ℕ)).1)
      = ∑ i ∈ Finset.filter (fun i : Fin ring.length => (i : ℕ) ≠ realIndex) Finset.univ,
        (rand (i : ℕ)).1 := by
    have herase : (Finset.univ.erase (⟨realIndex, hidx⟩ : Fin ring.length))
        = Finset.filter (fun i : Fin ring.length => (i : ℕ) ≠ realIndex) Finset.univ := by
      ext j
      simp [Fin.ext_iff]
    rw [herase]
    apply Finset.sum_congr rfl
    intro j hj
    exact if_neg (Finset.mem_filter.mp hj).2
  rw [hsum2, ← hwdef]
  ring

/-- Witness for C3: the degenerate ring of size 1 over `ZMod 7` with
base point `1`, `x = 2`, nonce `k = 3`; the generated signature
`[(2, 6)]` verifies. -/
theorem ring_signature_roundtrip_witness :
    hw_check_ring_signatures (1 : ZMod 7) (fun p => p + 1) Hdemo () 6 [2] [(2, 6)] = true :=
  ring_signature_roundtrip 1 (fun p => p + 1) Hdemo (fun _ => true) () [2] 2 3
    (fun _ => (0, 0)) 0 6 (by decide) (by decide) (by decide) (by decide) (by decide)
    [(2, 6)] rfl

/-- Claim C4: the one-time keys derived from the same derivation and
output index form a keypair — the derived secret key times the base
point equals the derived public key whenever `publicSpend` is the
public counterpart of `privateSpend`. -/
theorem derive_keys_keypair {L : ℕ} {P : Type} [AddCommGroup P] [Module (ZMod L) P]
    (G : P) (Hs : P → ℕ → ZMod L) (derivation : P) (output_index : ℕ)
    (privateSpend : ZMod L) (publicSpend : P)
    (hpub : publicSpend = privateSpend • G) :
    hw_derive_secret_key Hs derivation output_index privateSpend • G
      = hw_derive_public_key G Hs derivation output_index publicSpend := by
  simp [hw_derive_secret_key, hw_derive_public_key, add_smul, hpub]

/-- Witness for C4 over `ZMod 7` with `G = 3`, `privateSpend = 2`,
`publicSpend = 2 • 3 = 6`, derivation `4` and output index `5`. -/
theorem derive_keys_keypair_witness :
    hw_derive_secret_key (fun d i => d + (i : ZMod 7)) 4 5 2 • (3 : ZMod 7)
      = hw_derive_public_key 3 (fun d i => d + (i : ZMod 7)) 4 5 6 :=
  derive_keys_keypair 3 (fun d i => d + (i : ZMod 7)) 4 5 2 6 (by decide)

/-- Claim C5: key-image generation is deterministic — two invocations
of `hw_generate_key_image` on the identical input tuple produce the
same key image (the composition of derivation, one-time secret key and
the key-image primitive consumes no randomness). -/
theorem generate_key_image_deterministic {L : ℕ} {P : Type} [AddCommGroup P]
    [Module (ZMod L) P] (Hp : P → P) (Hs : P → ℕ → ZMod L)
    (tx_public_key : P) (output_index : ℕ) (output_key : P)
    (privateView privateSpend : ZMod L) (publicSpend : P) (k1 k2 : P)
    (h1 : hw_generate_key_image Hp Hs tx_public_key output_index output_key
            privateView privateSpend publicSpend = k1)
    (h2 : hw_generate_key_image Hp Hs tx_public_key output_index output_key
            privateView privateSpend publicSpend = k2) :
    k1 = k2 :=
  h1.symm.trans h2

/-- Witness for C5 over `ZMod 7`: the key image of the concrete input
tuple is the value `0` produced by evaluation. -/
theorem generate_key_image_deterministic_witness :
    hw_generate_key_image (fun p => p + 1) (fun d i => d + (i : ZMod 7)) 3 2 4 1 2 5 = 0 :=
  generate_key_image_deterministic (fun p => p + 1) (fun d i => d + (i : ZMod 7)) 3 2 4 1 2 5
    (hw_generate_key_image (fun p => p + 1) (fun d i => d + (i : ZMod 7)) 3 2 4 1 2 5) 0
    rfl (by decide)

/-- Claim C6: ring-signature verification is a total Boolean function
(by its very type in this model, mirroring the spec); on malformed
input — a signature whose length disagrees with the ring, or an empty
ring — it answers `false` rather than an error. -/
theorem check_ring_signatures_total_on_malformed {L : ℕ} {P : Type} [AddCommGroup P]
    [Module (ZMod L) P] [DecidableEq P] {PH : Type}
    (G : P) (Hp : P → P) (H : PH → P → List (P × P) → ZMod L)
    (tph : PH) (I : P) (ring : List P) (sig : List (ZMod L × ZMod L))
    (h : ring.length ≠ sig.length ∨ ring.length = 0) :
    hw_check_ring_signatures G Hp H tph I ring sig = false := by
  unfold hw_check_ring_signatures
  rw [dif_neg]
  rintro ⟨h1, h2⟩
  rcases h with h | h
  · exact h h1
  · omega

/-- Witness for C6: the empty ring with an empty signature list. -/
theorem check_ring_signatures_total_on_malformed_witness :
    hw_check_ring_signatures (1 : ZMod 7) (fun p => p + 1) Hdemo () 0 [] [] = false :=
  check_ring_signatures_total_on_malformed 1 (fun p => p + 1) Hdemo () 0 [] []
    (Or.inr rfl)

/-- Claim C7: ring-signature generation fails with `InvalidRingIndex`
whenever the real index is not less than the ring length, and with
`InvalidKey` whenever some ring member fails point validation; in both
cases the result is an error, so no signature is produced. -/
theorem generate_ring_signatures_failure_modes {L : ℕ} {P : Type} [AddCommGroup P]
    [Module (ZMod L) P] {PH : Type}
    (G : P) (Hp : P → P) (H : PH → P → List (P × P) → ZMod L) (valid : P → Bool)
    (tph : PH) (I : P) (ring : List P) (x k : ZMod L)
    (rand : ℕ → ZMod L × ZMod L) (realIndex : ℕ) :
    (ring.length ≤ realIndex →
      hw__generate_ring_signatures G Hp H valid tph I ring x k rand realIndex
        = Except.error HwError.InvalidRingIndex)
    ∧ (realIndex < ring.length → ring.all valid = false →
      hw__generate_ring_signatures G Hp H valid tph I ring x k rand realIndex
        = Except.error HwError.InvalidKey) := by
  constructor
  · intro h
    unfold hw__generate_ring_signatures
    rw [dif_neg (by omega)]
  · intro h hv
    unfold hw__generate_ring_signatures
    rw [dif_pos h, if_neg (by simp [hv])]

/-- Witness for C7: a size-1 ring with out-of-range index 5, and the
same ring with a validator rejecting every point. -/
theorem generate_ring_signatures_failure_modes_witness :
    hw__generate_ring_signatures (1 : ZMod 7) (fun p => p + 1) Hdemo (fun _ => true)
      () 6 [2] 2 3 (fun _ => (0, 0)) 5 = Except.error HwError.InvalidRingIndex
    ∧ hw__generate_ring_signatures (1 : ZMod 7) (fun p => p + 1) Hdemo (fun _ => false)
      () 6 [2] 2 3 (fun _ => (0, 0)) 0 = Except.error HwError.InvalidKey :=
  ⟨(generate_ring_signatures_failure_modes 1 (fun p => p + 1) Hdemo (fun _ => true)
      () 6 [2] 2 3 (fun _ => (0, 0)) 5).1 (by decide),
   (generate_ring_signatures_failure_modes 1 (fun p => p + 1) Hdemo (fun _ => false)
      () 6 [2] 2 3 (fun _ => (0, 0)) 0).2 (by decide) (by decide)⟩

/-- Witness for C10 with a session in the signing state and initial
flags `7`, which are untouched. -/
theorem handle_finalize_flags_untouched_witness :
    ( handle_tx_finalize_prefix (I := ℕ) (O := ℕ) (Q := ℕ) 16 0x6501
        ⟨TxState.TX_SIGNING, [], [], 0⟩ ⟨⟨fun _ => 0, fun _ => 0⟩, 7, false⟩).2.flags = 7
    ∧ ( handle_tx_finalize_prefix (I := ℕ) (O := ℕ) (Q := ℕ) 16 0x6501
        ⟨TxState.TX_SIGNING, [], [], 0⟩ ⟨⟨fun _ => 0, fun _ => 0⟩, 7, false⟩).2.uxFlowStarted
      = false := by
  have h := handle_finalize_flags_untouched (I := ℕ) (O := ℕ) (Q := ℕ) 16 0x6501
    ⟨TxState.TX_SIGNING, [], [], 0⟩ ⟨⟨fun _ => 0, fun _ => 0⟩, 7, false⟩ (by decide)
  exact ⟨h.1, h.2.1⟩

end Turtle
